import Mathlib

/-!
Verification of the `vault` file store (`src/main.rs`).

The embedding mirrors the Rust source shallowly:
* `File` embeds `struct File { name, extension, content }`; bytes become `List Nat`.
* `FileSystem` embeds `struct FileSystem { files: Vec<File> }`.
* Methods become pure state-passing functions. Fallible methods return the
  (possibly updated) state together with an `Except String Unit` carrying the
  source's error strings. `FileSystem.add_file` returns `Option (...)` where
  `none` models the Rust process abort caused by `self.delete_file(..).unwrap()`
  when there is nothing to delete.
* The persistence adapter's byte codec (the external `rmp_serde` crate) is
  modelled from the spec; the dispatch logic of `get_fs` is from the source.
-/

namespace Vault

structure File where
  name : String
  extension : String
  content : List Nat
deriving Repr, DecidableEq

structure FileSystem where
  files : List File
deriving Repr, DecidableEq

def FileSystem.new : FileSystem := ⟨[]⟩

/-- Embeds `FileSystem::file_exists`: a linear `find` on exact key match. -/
def FileSystem.file_exists (fs : FileSystem) (file_name file_ext : String) : Bool :=
  (fs.files.find? (fun f => f.name == file_name && f.extension == file_ext)).isSome

/-- Embeds `FileSystem::get_file`: `find` on exact key match, `Err` when absent. -/
def FileSystem.get_file (fs : FileSystem) (file_name file_ext : String) :
    Except String File :=
  match fs.files.find? (fun f => f.name == file_name && f.extension == file_ext) with
  | some f => .ok f
  | none => .error "file does not exist"

/-- Embeds `FileSystem::delete_file`: when the key exists, `retain` every record
satisfying the source's predicate, verbatim:
`&file.name != file_name && &file.extension != file_ext`;
otherwise `Err` with the state untouched. -/
def FileSystem.delete_file (fs : FileSystem) (file_name file_ext : String) :
    FileSystem × Except String Unit :=
  if fs.file_exists file_name file_ext then
    (⟨fs.files.filter (fun file => file.name != file_name && file.extension != file_ext)⟩,
      .ok ())
  else
    (fs, .error "file does not exist")

/-- Embeds `FileSystem::add_file`: a duplicate key without `overwrite` is an
`Err`; with `overwrite` the source first runs `self.delete_file(..).unwrap()` —
`none` models that unwrap aborting the process — then pushes the new file at
the end. -/
def FileSystem.add_file (fs : FileSystem) (file : File) (overwrite : Bool) :
    Option (FileSystem × Except String Unit) :=
  if fs.file_exists file.name file.extension && !overwrite then
    some (fs, .error "file already exists")
  else
    if overwrite then
      match fs.delete_file file.name file.extension with
      | (fs2, .ok _) => some (⟨fs2.files ++ [file]⟩, .ok ())
      | (_, .error _) => none
    else
      some (⟨fs.files ++ [file]⟩, .ok ())

/-- The key of a record, the spec's `(name, extension)` pair. -/
def fileKey (f : File) : String × String := (f.name, f.extension)

/-- The spec's key-uniqueness invariant on a store. -/
def UniqueKeys (fs : FileSystem) : Prop := (fs.files.map fileKey).Nodup

/-- Stores reachable from the empty store by successful `add_file` /
`delete_file` calls (failed calls return the state unchanged, and an aborting
`add_file` terminates the process, so neither produces a new state). -/
inductive Reachable : FileSystem → Prop where
  | empty : Reachable FileSystem.new
  | add {s s' : FileSystem} {f : File} {ow : Bool} :
      Reachable s → s.add_file f ow = some (s', .ok ()) → Reachable s'
  | del {s s' : FileSystem} {n e : String} :
      Reachable s → s.delete_file n e = (s', .ok ()) → Reachable s'

/-- Variable-length encoding of a natural number, 7 bits per byte,
low bits first, high bit of a byte marking continuation. -/
def encNat (n : Nat) : List Nat :=
  if n < 128 then [n] else (n % 128 + 128) :: encNat (n / 128)
decreasing_by exact Nat.div_lt_self (by omega) (by omega)

/-- Decoder matching `encNat`; returns the value and the unread rest. -/
def decNat : List Nat → Option (Nat × List Nat)
  | [] => none
  | b :: rest =>
    if b < 128 then some (b, rest)
    else
      match decNat rest with
      | some (m, rest2) => some (b - 128 + 128 * m, rest2)
      | none => none

def encChar (c : Char) : List Nat := encNat c.toNat

def decChar (l : List Nat) : Option (Char × List Nat) :=
  match decNat l with
  | some (n, rest) => if n.isValidChar then some (Char.ofNat n, rest) else none
  | none => none

def decChars : Nat → List Nat → Option (List Char × List Nat)
  | 0, l => some ([], l)
  | k + 1, l =>
    match decChar l with
    | some (c, l2) =>
      match decChars k l2 with
      | some (cs, l3) => some (c :: cs, l3)
      | none => none
    | none => none

def encString (s : String) : List Nat :=
  encNat s.data.length ++ (s.data.map encChar).flatten

def decString (l : List Nat) : Option (String × List Nat) :=
  match decNat l with
  | some (k, l2) =>
    match decChars k l2 with
    | some (cs, l3) => some (⟨cs⟩, l3)
    | none => none
  | none => none

def decNats : Nat → List Nat → Option (List Nat × List Nat)
  | 0, l => some ([], l)
  | k + 1, l =>
    match decNat l with
    | some (n, l2) =>
      match decNats k l2 with
      | some (ns, l3) => some (n :: ns, l3)
      | none => none
    | none => none

def encBytes (bs : List Nat) : List Nat :=
  encNat bs.length ++ (bs.map encNat).flatten

def decBytes (l : List Nat) : Option (List Nat × List Nat) :=
  match decNat l with
  | some (k, l2) => decNats k l2
  | none => none

def encFile (f : File) : List Nat :=
  encString f.name ++ (encString f.extension ++ encBytes f.content)

def decFile (l : List Nat) : Option (File × List Nat) :=
  match decString l with
  | some (n, l2) =>
    match decString l2 with
    | some (e, l3) =>
      match decBytes l3 with
      | some (bs, l4) => some (⟨n, e, bs⟩, l4)
      | none => none
    | none => none
  | none => none

def decFiles : Nat → List Nat → Option (List File × List Nat)
  | 0, l => some ([], l)
  | k + 1, l =>
    match decFile l with
    | some (f, l2) =>
      match decFiles k l2 with
      | some (fs, l3) => some (f :: fs, l3)
      | none => none
    | none => none

/-- Modelled from the spec: the persistence adapter's serializer (`save_fs` /
`rmp_serde::to_vec`). The actual codec is the external `rmp_serde` (MessagePack)
crate, absent from the source; the spec states the exact byte layout is not a
contract, only that the format round-trips "the Store's structure exactly
(ordered sequence of records, each with two text fields and one byte-sequence
field)". We model it as a length-prefixed binary encoding of that structure. -/
def save_fs (fs : FileSystem) : List Nat :=
  encNat fs.files.length ++ (fs.files.map encFile).flatten

/-- Modelled from the spec: the deserializer paired with `save_fs`
(`rmp_serde::from_slice`); `none` models deserialization failure on any
malformed or trailing input. -/
def from_slice (l : List Nat) : Option FileSystem :=
  match decNat l with
  | some (k, l2) =>
    match decFiles k l2 with
    | some (files, []) => some ⟨files⟩
    | _ => none
  | none => none

/-- The spec's two load failures. `missing` renders the source's
"no vault in current directory", `corrupt` its
"vault in current directory is invalid". -/
inductive LoadError where
  | missing
  | corrupt
deriving Repr, DecidableEq

/-- Embeds `get_fs`: the blob is `none` when `fs::read("vault.vault")` fails
(container file missing); a blob that does not deserialize is `corrupt`;
otherwise the deserialized store is returned as is. -/
def get_fs (blob : Option (List Nat)) : Except LoadError FileSystem :=
  match blob with
  | none => .error .missing
  | some bytes =>
    match from_slice bytes with
    | some fs => .ok fs
    | none => .error .corrupt

/-- The store of the spec's concrete delete-precision case: `a.txt` and `a.md`. -/
def c1Store : FileSystem := ⟨[⟨"a", "txt", [1]⟩, ⟨"a", "md", [2]⟩]⟩

def c3Store : FileSystem := ⟨[⟨"a", "txt", [1]⟩]⟩

def c3R : File := ⟨"a", "txt", [2]⟩

def c4Store : FileSystem := ⟨[⟨"b", "txt", [7]⟩]⟩

def c4R : File := ⟨"b", "txt", [9]⟩

def c8Store : FileSystem := ⟨[⟨"c", "txt", [1]⟩, ⟨"d", "pdf", [2]⟩]⟩

def c8R : File := ⟨"c", "txt", [5]⟩

def c10Store : FileSystem := ⟨[⟨"a", "txt", [3]⟩]⟩

lemma file_exists_iff (fs : FileSystem) (n e : String) :
    fs.file_exists n e = true ↔ ∃ f ∈ fs.files, f.name = n ∧ f.extension = e := by
  simp [FileSystem.file_exists, List.find?_isSome, Bool.and_eq_true, beq_iff_eq]

lemma file_exists_false_iff (fs : FileSystem) (n e : String) :
    fs.file_exists n e = false ↔ ∀ f ∈ fs.files, ¬(f.name = n ∧ f.extension = e) := by
  rw [← Bool.not_eq_true, file_exists_iff]
  constructor
  · intro h f hf hp
    exact h ⟨f, hf, hp⟩
  · rintro h ⟨f, hf, hp⟩
    exact h f hf hp

lemma find?_eq_none_of_not_exists (fs : FileSystem) (n e : String)
    (h : fs.file_exists n e = false) :
    fs.files.find? (fun f => f.name == n && f.extension == e) = none := by
  have := congrArg id h
  unfold FileSystem.file_exists at this
  exact Option.eq_none_of_isNone (by simpa [Option.isNone_iff_eq_none] using this)

lemma add_file_true_eq (fs : FileSystem) (f : File)
    (h : fs.file_exists f.name f.extension = true) :
    fs.add_file f true =
      some (⟨(fs.files.filter
        (fun g => g.name != f.name && g.extension != f.extension)) ++ [f]⟩, .ok ()) := by
  simp [FileSystem.add_file, FileSystem.delete_file, h]

lemma key_not_mem_filtered (l : List File) (f : File) :
    fileKey f ∉ (l.filter
      (fun g => g.name != f.name && g.extension != f.extension)).map fileKey := by
  intro hmem
  rcases List.mem_map.mp hmem with ⟨g, hg, hkey⟩
  rcases List.mem_filter.mp hg with ⟨-, hp⟩
  simp only [Bool.and_eq_true, bne_iff_ne] at hp
  exact hp.1 (congrArg Prod.fst hkey)

lemma key_not_mem_of_not_exists (fs : FileSystem) (f : File)
    (h : fs.file_exists f.name f.extension = false) :
    fileKey f ∉ fs.files.map fileKey := by
  intro hmem
  rcases List.mem_map.mp hmem with ⟨g, hg, hkey⟩
  exact (file_exists_false_iff fs f.name f.extension).mp h g hg
    ⟨congrArg Prod.fst hkey, congrArg Prod.snd hkey⟩

/-- C1. The claim states that a successful `delete_file` removes only the
record whose key is exactly the deleted key, and in particular that deleting
`("a","txt")` from a store holding `a.txt` and `a.md` leaves `a.md` present.
The source's `retain` predicate keeps a record only when BOTH its name and its
extension differ, so the call also deletes `a.md`: the resulting store is
empty. -/
theorem C1_delete_also_removes_same_name :
    c1Store.delete_file "a" "txt" = (⟨[]⟩, .ok ()) := by rfl

/-- C2. The claim states that `add_file` on an absent key succeeds for both
values of `overwrite`. With `overwrite = true` and the key absent the source
runs `self.delete_file(..).unwrap()` on an `Err`, aborting the process
(modelled by `none`): adding to the empty store with `overwrite = true` does
not succeed. -/
theorem C2_add_overwrite_absent_aborts :
    FileSystem.new.add_file ⟨"a", "txt", [1]⟩ true = none := by rfl

/-- C3. Adding `R` with `overwrite = true` over an existing record with `R`'s
key succeeds, and afterwards the records of the store whose key equals `R`'s
key are exactly `[R]` — one record with that key, holding `R`'s content. -/
theorem C3_overwrite_replaces (fs : FileSystem) (R : File)
    (h : fs.file_exists R.name R.extension = true) :
    ∃ fs', fs.add_file R true = some (fs', .ok ()) ∧
      fs'.files.filter (fun f => f.name == R.name && f.extension == R.extension) = [R] := by
  refine ⟨_, add_file_true_eq fs R h, ?_⟩
  rw [List.filter_append]
  have h1 : (fs.files.filter
      (fun g => g.name != R.name && g.extension != R.extension)).filter
      (fun f => f.name == R.name && f.extension == R.extension) = [] := by
    rw [List.filter_eq_nil_iff]
    intro g hg
    rcases List.mem_filter.mp hg with ⟨-, hp⟩
    simp only [Bool.and_eq_true, bne_iff_ne] at hp
    simp [hp.1]
  have h2 : [R].filter (fun f => f.name == R.name && f.extension == R.extension) = [R] := by
    simp
  rw [h1, h2, List.nil_append]

theorem C3_witness :
    c3Store.file_exists c3R.name c3R.extension = true ∧
      ∃ fs', c3Store.add_file c3R true = some (fs', .ok ()) ∧
        fs'.files.filter
          (fun f => f.name == c3R.name && f.extension == c3R.extension) = [c3R] :=
  ⟨by rfl, C3_overwrite_replaces c3Store c3R (by rfl)⟩

/-- C4. Adding `R` with `overwrite = false` while a record with `R`'s key is
present fails with the duplicate-key error ("file already exists") and returns
the store completely unchanged. -/
theorem C4_duplicate_add_fails_unchanged (fs : FileSystem) (R : File)
    (h : fs.file_exists R.name R.extension = true) :
    fs.add_file R false = some (fs, .error "file already exists") := by
  simp [FileSystem.add_file, h]

theorem C4_witness :
    c4Store.file_exists c4R.name c4R.extension = true ∧
      c4Store.add_file c4R false = some (c4Store, .error "file already exists") :=
  ⟨by rfl, C4_duplicate_add_fails_unchanged c4Store c4R (by rfl)⟩

/-- C5. On a key absent from the store, `get_file` fails with the not-found
error and `delete_file` fails with the not-found error returning the store
unchanged (same records, hence same count). -/
theorem C5_absent_key_nondestructive (fs : FileSystem) (n e : String)
    (h : fs.file_exists n e = false) :
    fs.get_file n e = .error "file does not exist" ∧
      fs.delete_file n e = (fs, .error "file does not exist") := by
  constructor
  · unfold FileSystem.get_file
    rw [find?_eq_none_of_not_exists fs n e h]
  · simp [FileSystem.delete_file, h]

theorem C5_witness :
    c1Store.file_exists "b" "txt" = false ∧
      c1Store.get_file "b" "txt" = .error "file does not exist" ∧
        c1Store.delete_file "b" "txt" = (c1Store, .error "file does not exist") :=
  ⟨by rfl, C5_absent_key_nondestructive c1Store "b" "txt" (by rfl)⟩

/-- C6. Key uniqueness is an invariant: the empty store satisfies it and every
successful `add_file` (either `overwrite` value) and `delete_file` preserves
it, so every reachable store has pairwise-distinct `(name, extension)` keys. -/
theorem C6_unique_keys_invariant {s : FileSystem} (h : Reachable s) : UniqueKeys s := by
  induction h with
  | empty => simp [UniqueKeys, FileSystem.new]
  | @add s s' f ow _ heq ih =>
    cases ow with
    | false =>
      by_cases hex : s.file_exists f.name f.extension = true
      · simp [FileSystem.add_file, hex] at heq
      · have hex' : s.file_exists f.name f.extension = false := by
          simpa using hex
        simp only [FileSystem.add_file, hex', Bool.false_and, if_false] at heq
        injection heq with h2
        injection h2 with h3 h4
        subst h3
        unfold UniqueKeys
        rw [List.map_append, List.nodup_append]
        exact ⟨ih, List.nodup_singleton _,
          by simpa [List.disjoint_singleton] using key_not_mem_of_not_exists s f hex'⟩
    | true =>
      by_cases hex : s.file_exists f.name f.extension = true
      · rw [add_file_true_eq s f hex] at heq
        injection heq with h2
        injection h2 with h3 h4
        subst h3
        unfold UniqueKeys
        rw [List.map_append, List.nodup_append]
        refine ⟨List.Nodup.sublist (List.Sublist.map fileKey (List.filter_sublist _)) ih,
          List.nodup_singleton _, ?_⟩
        simpa [List.disjoint_singleton] using key_not_mem_filtered s.files f
      · simp [FileSystem.add_file, FileSystem.delete_file, hex] at heq
  | @del s s' n e _ heq ih =>
    by_cases hex : s.file_exists n e = true
    · have hs' : s' = ⟨s.files.filter
          (fun file => file.name != n && file.extension != e)⟩ := by
        simp [FileSystem.delete_file, hex] at heq
        exact heq.symm
      subst hs'
      exact List.Nodup.sublist (List.Sublist.map fileKey (List.filter_sublist _)) ih
    · simp [FileSystem.delete_file, hex] at heq

theorem C6_witness : UniqueKeys FileSystem.new :=
  C6_unique_keys_invariant Reachable.empty

lemma decNat_encNat (n : Nat) (r : List Nat) : decNat (encNat n ++ r) = some (n, r) := by
  induction n using Nat.strong_induction_on with
  | _ n ih =>
    rw [encNat]
    by_cases h : n < 128
    · simp [decNat, h]
    · rw [if_neg h]
      have hb : ¬(n % 128 + 128 < 128) := by omega
      simp only [List.cons_append, decNat, if_neg hb, List.append_eq]
      rw [ih (n / 128) (Nat.div_lt_self (by omega) (by omega))]
      have hval : n % 128 + 128 - 128 + 128 * (n / 128) = n := by omega
      show some (n % 128 + 128 - 128 + 128 * (n / 128), r) = some (n, r)
      rw [hval]

lemma decChar_encChar (c : Char) (r : List Nat) : decChar (encChar c ++ r) = some (c, r) := by
  have hv : c.toNat.isValidChar := c.valid
  unfold decChar encChar
  rw [decNat_encNat]
  simp [hv]

lemma decChars_enc (cs : List Char) (r : List Nat) :
    decChars cs.length ((cs.map encChar).flatten ++ r) = some (cs, r) := by
  induction cs with
  | nil => simp [decChars]
  | cons c cs ih =>
    simp [decChars, List.append_assoc, decChar_encChar, ih]

lemma decNats_enc (ns : List Nat) (r : List Nat) :
    decNats ns.length ((ns.map encNat).flatten ++ r) = some (ns, r) := by
  induction ns with
  | nil => simp [decNats]
  | cons n ns ih =>
    simp [decNats, List.append_assoc, decNat_encNat, ih]

lemma decString_encString (s : String) (r : List Nat) :
    decString (encString s ++ r) = some (s, r) := by
  have h1 := decNat_encNat s.data.length ((s.data.map encChar).flatten ++ r)
  have h2 := decChars_enc s.data r
  unfold decString encString
  rw [List.append_assoc, h1]
  simp only [h2]

lemma decBytes_encBytes (bs : List Nat) (r : List Nat) :
    decBytes (encBytes bs ++ r) = some (bs, r) := by
  simp [decBytes, encBytes, List.append_assoc, decNat_encNat, decNats_enc]

lemma decFile_encFile (f : File) (r : List Nat) :
    decFile (encFile f ++ r) = some (f, r) := by
  simp [decFile, encFile, List.append_assoc, decString_encString, decBytes_encBytes]

lemma decFiles_enc (fs : List File) (r : List Nat) :
    decFiles fs.length ((fs.map encFile).flatten ++ r) = some (fs, r) := by
  induction fs with
  | nil => simp [decFiles]
  | cons f fs ih =>
    simp [decFiles, List.append_assoc, decFile_encFile, ih]

/-- C7. Saving any store and loading the result back yields the very same
store — same records, each with its name, extension and content, in the same
order: deserialization after serialization is the identity. -/
theorem C7_save_load_roundtrip (fs : FileSystem) :
    get_fs (some (save_fs fs)) = .ok fs := by
  have h1 := decNat_encNat fs.files.length ((fs.files.map encFile).flatten)
  have h2 := decFiles_enc fs.files ([] : List Nat)
  rw [List.append_nil] at h2
  simp [get_fs, from_slice, save_fs, h1, h2]

/-- C8. When `add_file` with `overwrite = true` replaces an existing record
with `R`'s key, `R` ends up as the last element of the store's sequence. -/
theorem C8_overwrite_appends_at_end (fs : FileSystem) (R : File)
    (h : fs.file_exists R.name R.extension = true) :
    ∃ fs', fs.add_file R true = some (fs', .ok ()) ∧ fs'.files.getLast? = some R := by
  refine ⟨_, add_file_true_eq fs R h, ?_⟩
  simp

theorem C8_witness :
    c8Store.file_exists c8R.name c8R.extension = true ∧
      ∃ fs', c8Store.add_file c8R true = some (fs', .ok ()) ∧
        fs'.files.getLast? = some c8R :=
  ⟨by rfl, C8_overwrite_appends_at_end c8Store c8R (by rfl)⟩

/-- C9. Loading returns `missing` exactly when the container file is absent,
`corrupt` exactly when the bytes do not deserialize into a store, and
otherwise the deserialized store unchanged. -/
theorem C9_load_cases :
    get_fs none = .error .missing ∧
      (∀ bytes, from_slice bytes = none → get_fs (some bytes) = .error .corrupt) ∧
      (∀ bytes fs, from_slice bytes = some fs → get_fs (some bytes) = .ok fs) := by
  refine ⟨rfl, ?_, ?_⟩
  · intro bytes hb
    simp [get_fs, hb]
  · intro bytes fs hb
    simp [get_fs, hb]

theorem C9_witness :
    from_slice [200] = none ∧ get_fs (some [200]) = .error .corrupt :=
  ⟨by rfl, C9_load_cases.2.1 [200] (by rfl)⟩

/-- C10. Membership and lookup agree: `file_exists` is true exactly when
`get_file` succeeds, and a successful `get_file` returns a record whose name
and extension are the queried key. -/
theorem C10_contains_get_agree (fs : FileSystem) (n e : String) :
    (fs.file_exists n e = true ↔ ∃ f, fs.get_file n e = .ok f) ∧
      ∀ f, fs.get_file n e = .ok f → f.name = n ∧ f.extension = e := by
  constructor
  · unfold FileSystem.file_exists FileSystem.get_file
    cases hf : fs.files.find? (fun f => f.name == n && f.extension == e) with
    | none => simp
    | some g => simp
  · intro f hf
    unfold FileSystem.get_file at hf
    cases hfind : fs.files.find? (fun g => g.name == n && g.extension == e) with
    | none =>
      simp only [hfind] at hf
      cases hf
    | some g =>
      simp only [hfind] at hf
      injection hf with h
      subst h
      have := List.find?_some hfind
      simpa [Bool.and_eq_true, beq_iff_eq] using this

theorem C10_witness : ∃ f, c10Store.get_file "a" "txt" = .ok f :=
  (C10_contains_get_agree c10Store "a" "txt").1.mp (by rfl)

end Vault
